import Mathlib

/-!
Verification of the capture/recall pipeline of the
`openclaw-memory-offline-sqlite-plugin` repository (src/index.ts and
src/capture-utils.js), shallowly embedded in Lean 4.

Text is modelled as `List Char` (JavaScript strings, one entry per code
point).  External collaborators (the SQLite store, the SHA-1 digest, the
Unicode property classes, the `Date` formatter, the Ollama probe) are
modelled as explicit parameters or boolean outcomes, exactly at the
boundary where src/index.ts calls them.
-/

namespace Mem

/-- JavaScript `String.prototype.trim`: drop leading and trailing
whitespace (`text.trim()` in `src/index.ts`). -/
def jsTrim (s : List Char) : List Char :=
  ((s.dropWhile Char.isWhitespace).reverse.dropWhile Char.isWhitespace).reverse

/-- Helper for `normWs`: collapse every maximal whitespace run to a single
space.  The boolean records whether the previous character was part of a
whitespace run. -/
def squeezeWsAux : Bool → List Char → List Char
  | _, [] => []
  | prevWs, c :: rest =>
    if c.isWhitespace then
      (if prevWs then [] else [' ']) ++ squeezeWsAux true rest
    else c :: squeezeWsAux false rest

/-- JavaScript `text.replace(whitespace-run, " ").trim()` as used when
rendering snippets in `before_agent_start` (src/index.ts lines 858, 883). -/
def normWs (s : List Char) : List Char :=
  jsTrim (squeezeWsAux false s)

/-- JavaScript `String.prototype.includes`: substring containment
(`c.text.includes(...)` in src/capture-utils.js). -/
def includes (s pat : List Char) : Bool :=
  decide (pat <:+: s)

/-- The long-term injected-context marker used by `before_agent_start`
(src/index.ts line 897) and filtered by `sanitizeCaptures`. -/
def relevantMemoriesMarker : List Char := "<relevant-memories>".data

/-- The short-term injected-context marker used by `before_agent_start`
(src/index.ts line 869). -/
def shortTermMarker : List Char := "<short-term-memory>".data

/-- Message role accepted by the capture extraction (src/index.ts line 936:
only `user` and `assistant` survive). -/
inductive Role where
  | user
  | assistant
deriving DecidableEq, Repr

/-- A `{role, text}` capture candidate (src/index.ts line 931). -/
structure Capture where
  role : Role
  text : List Char
deriving DecidableEq, Repr

/-- `sanitizeCaptures` from src/capture-utils.js: trim every text, drop
empties, drop texts containing the `<relevant-memories>` marker. -/
def sanitizeCaptures (captures : List Capture) : List Capture :=
  ((captures.map (fun c => { role := c.role, text := jsTrim c.text }))
      |>.filter (fun c => decide (0 < c.text.length)))
      |>.filter (fun c => !(includes c.text relevantMemoriesMarker))

/-- Lower-casing used to model the case-insensitive (`/i`) acknowledgement
regex of `shouldSkipCapture`. -/
def lowerStr (s : List Char) : List Char := s.map Char.toLower

/-- The fixed acknowledgement alternatives of the noise regex in
`shouldSkipCapture` (src/index.ts line 446). -/
def ackTokens : List (List Char) :=
  ["ok", "okay", "kk", "merci", "thanks", "thx", "oui", "non", "yep",
   "nope", "👍", "👌", "✅", "ok."].map String.data

/-- `shouldSkipCapture` from src/index.ts lines 439-448.  `isAlnum` is the
Unicode letter-or-number class of the `\p{L}\p{N}` regex, supplied by the
host regex engine and therefore a parameter of the model. -/
def shouldSkipCapture (isAlnum : Char → Bool) (text : List Char)
    (minChars : Nat) : Bool :=
  let t := jsTrim text
  if t.isEmpty then true
  else if decide (0 < minChars) && decide (t.length < minChars) then true
  else if !(t.any isAlnum) then true
  else if decide (lowerStr t ∈ ackTokens) then true
  else false

/-- The clipping of stored capture text (src/index.ts line 993):
`text.length > cfg.captureMaxChars ? text.slice(0, cap) + ellipsis : text`. -/
def clip (maxChars : Nat) (text : List Char) : List Char :=
  if maxChars < text.length then text.take maxChars ++ ['…'] else text

/-- External functions the capture loop calls: the Unicode class of the
noise regex and the content hash.  `hashOf` models
`textHash (normalizeForDedupe text)` (src/index.ts lines 988-989), i.e. the
SHA-1 hex digest of the normalized text — an external crypto call. -/
structure CapEnv where
  isAlnum : Char → Bool
  hashOf : List Char → List Char

/-- The capture configuration fields read by the `agent_end` hook
(`getCfg`, src/index.ts lines 415-419). -/
structure CaptureCfg where
  captureMaxPerTurn : Nat
  captureMinChars : Nat
  captureMaxChars : Nat
  captureDedupeWindowMs : Nat
deriving DecidableEq, Repr

/-- A row inserted by `addItem` from the capture loop (src/index.ts lines
1008-1019).  `id` models the fresh `randomUUID()` as the index of the
candidate that produced the row, which keeps it unique per insert. -/
structure StoredItem where
  id : Nat
  text : List Char
  tags : Role
  hash : List Char
deriving DecidableEq, Repr

/-- The mutable state of the capture loop: the in-memory dedupe window
`recentHashes`, the `stored` counter, the rows inserted so far, and
whether an insert threw (which in the source jumps straight to the outer
catch of the `agent_end` handler). -/
structure CapState where
  recentHashes : List (List Char)
  stored : Nat
  items : List StoredItem
  aborted : Bool
deriving DecidableEq, Repr

/-- Initial capture-loop state: `recentHashes` holds the hashes recovered
from the store query over the dedupe window (src/index.ts lines 963-979). -/
def initCapState (dbHashes : List (List Char)) : CapState :=
  { recentHashes := dbHashes, stored := 0, items := [], aborted := false }

/-- One iteration of the capture loop body (src/index.ts lines 983-1021).
`insertFails` models `addItem` throwing for a given clipped text. -/
def captureStep (env : CapEnv) (cfg : CaptureCfg)
    (insertFails : List Char → Bool) (st : CapState) (idx : Nat)
    (c : Capture) : CapState :=
  if st.aborted then st
  else if shouldSkipCapture env.isAlnum c.text cfg.captureMinChars then st
  else if decide (0 < cfg.captureDedupeWindowMs) &&
          decide (env.hashOf c.text ∈ st.recentHashes) then st
  else if insertFails (clip cfg.captureMaxChars c.text) then
    { st with recentHashes := env.hashOf c.text :: st.recentHashes,
              aborted := true }
  else
    { recentHashes := env.hashOf c.text :: st.recentHashes
      stored := st.stored + 1
      items := st.items ++
        [{ id := idx, text := clip cfg.captureMaxChars c.text,
           tags := c.role, hash := env.hashOf c.text }]
      aborted := st.aborted }

/-- The capture loop `for (let i = 0; i < ...; i++)` over the candidate
list, carrying the loop index. -/
def capLoop (env : CapEnv) (cfg : CaptureCfg)
    (insertFails : List Char → Bool) :
    Nat → List Capture → CapState → CapState
  | _, [], st => st
  | i, c :: rest, st =>
    capLoop env cfg insertFails (i + 1) rest
      (captureStep env cfg insertFails st i c)

/-- The whole capture loop of `agent_end`: iterate over the first
`Math.min(maxPerTurn, cleaned.length)` candidates (src/index.ts line 983). -/
def captureRun (env : CapEnv) (cfg : CaptureCfg)
    (insertFails : List Char → Bool) (dbHashes : List (List Char))
    (cleaned : List Capture) : CapState :=
  capLoop env cfg insertFails 0 (cleaned.take cfg.captureMaxPerTurn)
    (initCapState dbHashes)

/-- What the `agent_end` handler reports after the loop: the rows
inserted, the optional "auto-captured N" info log (src/index.ts lines
1023-1025, skipped when an exception jumped to the outer catch), and
whether the handler itself crashed (the outer catch at lines 1059-1063
always swallows the error, so this is always `false`). -/
structure AgentEndOutcome where
  items : List StoredItem
  loggedCount : Option Nat
  crashed : Bool
deriving DecidableEq, Repr

/-- The `agent_end` capture portion end to end: run the loop, then either
emit the count log (normal path) or fall into the outer catch (insert
threw), which logs the error and returns normally. -/
def agentEndCapture (env : CapEnv) (cfg : CaptureCfg)
    (insertFails : List Char → Bool) (dbHashes : List (List Char))
    (cleaned : List Capture) : AgentEndOutcome :=
  let st := captureRun env cfg insertFails dbHashes cleaned
  if st.aborted then
    { items := st.items, loggedCount := none, crashed := false }
  else
    { items := st.items
      loggedCount := if 0 < st.stored then some st.stored else none
      crashed := false }

/-- A row of the `items` table as seen by `memory_gc` (src/index.ts line
783: `SELECT id, created_at, tags`). -/
structure GItem where
  id : Nat
  created_at : Int
  tags : Option (List Char)
deriving DecidableEq, Repr

/-- A row of the `embeddings` table; only the `item_id` foreign key is
relevant to GC (src/index.ts line 800). -/
structure EmbRow where
  item_id : Nat
deriving DecidableEq, Repr

/-- The part of the database state `memory_gc` touches. -/
structure GcDb where
  items : List GItem
  embeddings : List EmbRow
deriving DecidableEq, Repr

/-- The deletion counts `memory_gc` reports (src/index.ts lines 802-805). -/
structure GcReport where
  deletedItems : Nat
  deletedEmbeddings : Nat
deriving DecidableEq, Repr

/-- The row predicate of the candidate-selection SQL (src/index.ts lines
779-785): `created_at < cutoff AND (tags IS NULL OR tags NOT IN (...))`,
where the whole tag clause is omitted when `protectedTags` is empty. -/
def gcWhere (cutoff : Int) (protectedTags : List (List Char))
    (it : GItem) : Bool :=
  decide (it.created_at < cutoff) &&
    (protectedTags.isEmpty ||
      it.tags.elim true (fun t => !(decide (t ∈ protectedTags))))

/-- The rows matching the candidate-selection WHERE clause, with
`cutoff = now - days * 86400000` (src/index.ts line 776). -/
def gcCandidates (now : Int) (days : Nat)
    (protectedTags : List (List Char)) (items : List GItem) : List GItem :=
  items.filter (gcWhere (now - (days : Int) * 86400000) protectedTags)

/-- Insertion of one row into a list sorted by `created_at` (model of the
SQL `ORDER BY created_at ASC`). -/
def insertSorted (a : GItem) : List GItem → List GItem
  | [] => [a]
  | b :: rest =>
    if a.created_at ≤ b.created_at then a :: b :: rest
    else b :: insertSorted a rest

/-- Sort by `created_at` ascending (model of `ORDER BY created_at ASC`). -/
def sortByCreatedAt : List GItem → List GItem
  | [] => []
  | a :: rest => insertSorted a (sortByCreatedAt rest)

/-- The candidate selection of `memory_gc`: WHERE filter, `ORDER BY
created_at ASC`, `LIMIT lim` (src/index.ts lines 782-787). -/
def gcSelect (now : Int) (days : Nat) (protectedTags : List (List Char))
    (lim : Nat) (items : List GItem) : List GItem :=
  (sortByCreatedAt (gcCandidates now days protectedTags items)).take lim

/-- The body of the GC delete transaction (src/index.ts lines 797-806):
delete the embedding rows of the selected ids and the item rows with the
selected ids, returning the change counts. -/
def gcDeleteTx (ids : List Nat) (db : GcDb) : GcDb × GcReport :=
  let keepEmb := db.embeddings.filter (fun e => !(decide (e.item_id ∈ ids)))
  let keepItems := db.items.filter (fun it => !(decide (it.id ∈ ids)))
  ({ items := keepItems, embeddings := keepEmb },
   { deletedItems := db.items.length - keepItems.length
     deletedEmbeddings := db.embeddings.length - keepEmb.length })

/-- The best-effort `try { db.exec("VACUUM") } catch {}` that follows the
transaction (src/index.ts lines 809-811).  VACUUM rewrites the database
file but never changes the logical rows, and a failure is swallowed, so
the logical state is returned unchanged either way. -/
def tryVacuum (_vacuumFails : Bool) (db : GcDb) : GcDb := db

/-- The live (non-dry-run) path of `memory_gc` (src/index.ts lines
787-816): select candidates, run the delete transaction (atomic: a
failure, `txFails`, rolls the whole delete back and the thrown error
leaves the reported result absent), then attempt VACUUM. -/
def memory_gc_live (txFails vacuumFails : Bool) (now : Int) (days : Nat)
    (protectedTags : List (List Char)) (lim : Nat) (db : GcDb) :
    GcDb × Option GcReport :=
  let ids := (gcSelect now days protectedTags lim db.items).map GItem.id
  if txFails then (db, none)
  else
    let r := gcDeleteTx ids db
    (tryVacuum vacuumFails r.1, some r.2)

/-- A session-history row fetched by the short-term query (src/index.ts
lines 841-847: `SELECT created_at, text, tags ... ORDER BY created_at
DESC LIMIT 50`).  The list handed to the loop is in that query order,
newest first. -/
structure SessionRow where
  created_at : Int
  text : List Char
  tags : List Char
deriving DecidableEq, Repr

/-- The fully rendered short-term line of one row (src/index.ts lines
857-861): `[role: X] snippet` with the snippet clamped to 300 characters
plus an ellipsis. -/
def rowLine (r : SessionRow) : List Char :=
  let role := if r.tags = "assistant".data then "assistant".data
              else "user".data
  let text := normWs r.text
  let snippet := if 300 < text.length then text.take 300 ++ ['…'] else text
  ("[role: ".data ++ role ++ "] ".data) ++ snippet

/-- The short-term accumulation loop (src/index.ts lines 849-866), walking
rows oldest-first with the message-count cap (15) and the character-budget
cap (2000); a line that would overflow the budget ends the loop. -/
def stGo : List SessionRow → Nat → Nat → List (List Char)
  | [], _, _ => []
  | r :: rest, count, chars =>
    if 15 ≤ count || 2000 ≤ chars then []
    else if (normWs r.text).isEmpty then stGo rest count chars
    else if 2000 < chars + (rowLine r).length then []
    else rowLine r :: stGo rest (count + 1) (chars + (rowLine r).length)

/-- The short-term lines produced from the fetched rows (newest-first):
the source reverses them to oldest-first before accumulating
(src/index.ts line 855). -/
def shortTermLines (rows : List SessionRow) : List (List Char) :=
  stGo rows.reverse 0 0

/-- The wrapped short-term block (src/index.ts lines 868-874), empty when
no line survived. -/
def shortTermBlockOf (rows : List SessionRow) : List Char :=
  let lines := shortTermLines rows
  if lines.isEmpty then []
  else
    "<short-term-memory>\nRecent messages (same session):\n".data ++
      List.intercalate "\n".data lines ++
      "\n</short-term-memory>".data

/-- A recall result row as rendered by `before_agent_start` (src/index.ts
lines 879-891). -/
structure RecallItem where
  text : List Char
  tags : List Char
  source : List Char
  created_at : Option Int
deriving DecidableEq, Repr

/-- One rendered long-term bullet (src/index.ts lines 881-891).  `dateFmt`
models `new Date(ts).toISOString().slice(0, 10)`, an external Date call;
a falsy `created_at` (absent or zero) renders no date bit. -/
def renderRecallLine (dateFmt : Int → List Char) (it : RecallItem) :
    List Char :=
  let text := normWs it.text
  let snippet := if 200 < text.length then text.take 200 ++ ['…'] else text
  let tag := jsTrim it.tags
  let src := jsTrim it.source
  let date := match it.created_at with
    | none => []
    | some ts => if ts = 0 then [] else dateFmt ts
  let bits := List.intercalate " ".data
    (([if tag.isEmpty then none else some ("tag:".data ++ tag),
       if src.isEmpty then none else some ("src:".data ++ src),
       if date.isEmpty then none else some ("date:".data ++ date)]
      : List (Option (List Char))).filterMap id)
  if bits.isEmpty then "- ".data ++ snippet
  else "- ".data ++ snippet ++ " (".data ++ bits ++ ")".data

/-- The wrapped long-term block (src/index.ts lines 877-901), empty when
the search returned no result. -/
def recallBlockOf (dateFmt : Int → List Char) (results : List RecallItem) :
    List Char :=
  if results.isEmpty then []
  else
    "<relevant-memories>\nThe following memories may be relevant to this conversation:\n".data
      ++ List.intercalate "\n".data
          ((results.take 3).map (renderRecallLine dateFmt))
      ++ "\n</relevant-memories>".data

/-- The `before_agent_start` hook (src/index.ts lines 827-907):
`sessionRows` is `none` when the event carries no session key, otherwise
the rows fetched for that session; `results` are the long-term search
results.  The hook returns the optional `prependContext` payload. -/
def beforeAgentStart (dateFmt : Int → List Char) (prompt : List Char)
    (sessionRows : Option (List SessionRow)) (results : List RecallItem) :
    Option (List Char) :=
  if (jsTrim prompt).length < 5 then none
  else
    let stBlock := match sessionRows with
      | none => []
      | some rows => shortTermBlockOf rows
    let rBlock := recallBlockOf dateFmt results
    if stBlock.isEmpty && rBlock.isEmpty then none
    else
      some (List.intercalate "\n\n".data
        (([stBlock, rBlock]).filter (fun b => !b.isEmpty)))

/-- The warning rate-limit interval of the hybrid degradation guard
(src/index.ts line 454): one hour. -/
def hybridDegradeIntervalMs : Int := 1000 * 60 * 60

/-- `maybeLogHybridDegraded` (src/index.ts lines 452-458) as a pure state
transformer on the module-level `lastHybridDegradedLogTs`: returns the new
timestamp and whether the warning was emitted. -/
def maybeLogHybridDegraded (now last : Int) : Int × Bool :=
  if now - last < hybridDegradeIntervalMs then (last, false)
  else (now, true)

/-- The timestamps at which a warning is actually emitted over a sequence
of degraded recall calls, threading `lastHybridDegradedLogTs` through
`maybeLogHybridDegraded`. -/
def degradedWarnTimes : List Int → Int → List Int
  | [], _ => []
  | t :: rest, last =>
    match maybeLogHybridDegraded t last with
    | (last', emitted) =>
      if emitted then t :: degradedWarnTimes rest last'
      else degradedWarnTimes rest last'

/-- The configured search mode (src/index.ts line 407). -/
inductive SearchMode where
  | lexical
  | hybrid
deriving DecidableEq, Repr

/-- Which backend produced the results of one recall call. -/
inductive RecallOutcome where
  | lexical (res : List RecallItem)
  | hybrid (res : List RecallItem)
deriving DecidableEq, Repr

/-- The search dispatch of `recall` (src/index.ts lines 468-516): in
hybrid mode a liveness probe (`probeOk`) guards the hybrid search; on
probe failure the call falls back to `searchItems` (lexical) and runs
`maybeLogHybridDegraded`.  Returns the outcome, the new rate-limit
timestamp and whether a warning was emitted. -/
def recallSearch (mode : SearchMode) (probeOk : Bool) (now last : Int)
    (lexRes hybRes : List RecallItem) : RecallOutcome × Int × Bool :=
  match mode with
  | .lexical => (.lexical lexRes, last, false)
  | .hybrid =>
    if probeOk then (.hybrid hybRes, last, false)
    else
      match maybeLogHybridDegraded now last with
      | (last', emitted) => (.lexical lexRes, last', emitted)

/-! Concrete inputs used by the witness and counterexample theorems. -/

/-- A concrete capture environment: ASCII letter/digit class and the
identity as content hash (any injective digest exercises the dedupe
logic). -/
def exEnv : CapEnv :=
  { isAlnum := fun c => c.isAlpha || c.isDigit, hashOf := fun t => t }

/-- A concrete configuration with the dedupe window disabled. -/
def exCfg0 : CaptureCfg :=
  { captureMaxPerTurn := 20, captureMinChars := 0, captureMaxChars := 200,
    captureDedupeWindowMs := 0 }

/-- A concrete configuration with a positive (one hour) dedupe window. -/
def exCfgW : CaptureCfg :=
  { captureMaxPerTurn := 20, captureMinChars := 0, captureMaxChars := 200,
    captureDedupeWindowMs := 3600000 }

/-- A concrete user capture candidate. -/
def exCu : Capture := { role := .user, text := "hello world".data }

/-- First candidate of the failing-insert scenario. -/
def exC1 : Capture := { role := .user, text := "alpha text".data }

/-- Second candidate of the failing-insert scenario. -/
def exC2 : Capture := { role := .assistant, text := "beta text".data }

/-- An insert-failure oracle that fails exactly on the first candidate's
clipped text. -/
def exFails : List Char → Bool := fun t => t == "alpha text".data

/-- A message whose text bears the short-term injected-context marker. -/
def stMsg : Capture :=
  { role := .assistant,
    text := "<short-term-memory>recent notes</short-term-memory>".data }

/-- A prior same-session user capture row. -/
def exRow : SessionRow :=
  { created_at := 1000, text := "we decided to use sqlite".data,
    tags := "user".data }

/-- A protected (tag `personal`) item two days old. -/
def exPItem : GItem := { id := 1, created_at := 0, tags := some "personal".data }

/-- A database holding only the protected item. -/
def exDb2 : GcDb := { items := [exPItem], embeddings := [] }

/-- A database with one stale and one fresh item, each with an embedding
row. -/
def exDb4 : GcDb :=
  { items := [{ id := 1, created_at := 0, tags := none },
              { id := 2, created_at := 200000000, tags := none }],
    embeddings := [{ item_id := 1 }, { item_id := 2 }] }

/-! Lemmas about the capture loop. -/

theorem captureStep_of_aborted (env : CapEnv) (cfg : CaptureCfg)
    (f : List Char → Bool) (st : CapState) (i : Nat) (c : Capture)
    (h : st.aborted = true) : captureStep env cfg f st i c = st := by
  unfold captureStep
  rw [if_pos h]

theorem captureStep_items_sub (env : CapEnv) (cfg : CaptureCfg)
    (f : List Char → Bool) (st : CapState) (i : Nat) (c : Capture) :
    st.items ⊆ (captureStep env cfg f st i c).items := by
  unfold captureStep
  split_ifs <;> first
    | exact fun _ ha => ha
    | exact List.subset_append_left _ _

theorem captureStep_hashes_sub (env : CapEnv) (cfg : CaptureCfg)
    (f : List Char → Bool) (st : CapState) (i : Nat) (c : Capture) :
    st.recentHashes ⊆ (captureStep env cfg f st i c).recentHashes := by
  unfold captureStep
  split_ifs <;> first
    | exact fun _ ha => ha
    | exact List.subset_cons_self _ _

theorem captureStep_items_mem (env : CapEnv) (cfg : CaptureCfg)
    (f : List Char → Bool) (st : CapState) (i : Nat) (c : Capture)
    (it : StoredItem) (hmem : it ∈ (captureStep env cfg f st i c).items) :
    it ∈ st.items ∨
      it = { id := i, text := clip cfg.captureMaxChars c.text,
             tags := c.role, hash := env.hashOf c.text } := by
  unfold captureStep at hmem
  split_ifs at hmem <;>
    first
    | exact Or.inl hmem
    | · rcases List.mem_append.mp hmem with h | h
        · exact Or.inl h
        · exact Or.inr (List.mem_singleton.mp h)

theorem captureStep_stored_le (env : CapEnv) (cfg : CaptureCfg)
    (f : List Char → Bool) (st : CapState) (i : Nat) (c : Capture) :
    (captureStep env cfg f st i c).stored ≤ st.stored + 1 := by
  unfold captureStep
  split_ifs <;> simp

theorem captureStep_nonnoise_hash (env : CapEnv) (cfg : CaptureCfg)
    (f : List Char → Bool) (st : CapState) (i : Nat) (c : Capture)
    (h2 : shouldSkipCapture env.isAlnum c.text cfg.captureMinChars = false) :
    st.aborted = true ∨
      env.hashOf c.text ∈ (captureStep env cfg f st i c).recentHashes := by
  cases habort : st.aborted with
  | true => exact Or.inl rfl
  | false =>
    refine Or.inr ?_
    unfold captureStep
    rw [if_neg (by simp [habort]), if_neg (by simp [h2])]
    split_ifs with hd _
    · exact of_decide_eq_true ((Bool.and_eq_true _ _).mp hd).2
    · exact List.mem_cons_self _ _
    · exact List.mem_cons_self _ _

theorem capLoop_of_aborted (env : CapEnv) (cfg : CaptureCfg)
    (f : List Char → Bool) :
    ∀ (l : List Capture) (i : Nat) (st : CapState), st.aborted = true →
      capLoop env cfg f i l st = st := by
  intro l
  induction l with
  | nil => intro i st _; rfl
  | cons c rest ih =>
    intro i st h
    show capLoop env cfg f (i + 1) rest (captureStep env cfg f st i c) = st
    rw [captureStep_of_aborted env cfg f st i c h]
    exact ih (i + 1) st h

theorem capLoop_hashes_sub (env : CapEnv) (cfg : CaptureCfg)
    (f : List Char → Bool) :
    ∀ (l : List Capture) (i : Nat) (st : CapState),
      st.recentHashes ⊆ (capLoop env cfg f i l st).recentHashes := by
  intro l
  induction l with
  | nil => intro i st; exact fun _ h => h
  | cons c rest ih =>
    intro i st
    exact (captureStep_hashes_sub env cfg f st i c).trans
      (ih (i + 1) (captureStep env cfg f st i c))

theorem capLoop_items_sub (env : CapEnv) (cfg : CaptureCfg)
    (f : List Char → Bool) :
    ∀ (l : List Capture) (i : Nat) (st : CapState),
      st.items ⊆ (capLoop env cfg f i l st).items := by
  intro l
  induction l with
  | nil => intro i st; exact fun _ h => h
  | cons c rest ih =>
    intro i st
    exact (captureStep_items_sub env cfg f st i c).trans
      (ih (i + 1) (captureStep env cfg f st i c))

theorem capLoop_items_mem (env : CapEnv) (cfg : CaptureCfg)
    (f : List Char → Bool) :
    ∀ (l : List Capture) (i : Nat) (st : CapState) (it : StoredItem),
      it ∈ (capLoop env cfg f i l st).items →
      it ∈ st.items ∨ (i ≤ it.id ∧ it.id < i + l.length) := by
  intro l
  induction l with
  | nil => intro i st it h; exact Or.inl h
  | cons c rest ih =>
    intro i st it h
    rcases ih (i + 1) (captureStep env cfg f st i c) it h with h1 | h1
    · rcases captureStep_items_mem env cfg f st i c it h1 with h2 | h2
      · exact Or.inl h2
      · refine Or.inr ?_
        rw [h2]
        simp only [List.length_cons]
        omega
    · refine Or.inr ?_
      simp only [List.length_cons]
      omega

theorem capLoop_append_eq (env : CapEnv) (cfg : CaptureCfg)
    (f : List Char → Bool) :
    ∀ (l₁ l₂ : List Capture) (i : Nat) (st : CapState),
      capLoop env cfg f i (l₁ ++ l₂) st =
        capLoop env cfg f (i + l₁.length) l₂ (capLoop env cfg f i l₁ st) := by
  intro l₁
  induction l₁ with
  | nil => intro l₂ i st; rfl
  | cons c rest ih =>
    intro l₂ i st
    show capLoop env cfg f (i + 1) (rest ++ l₂) (captureStep env cfg f st i c) = _
    rw [ih l₂ (i + 1) (captureStep env cfg f st i c)]
    have : i + 1 + rest.length = i + (rest.length + 1) := by omega
    rw [this]
    rfl

theorem capLoop_nonnoise_hash (env : CapEnv) (cfg : CaptureCfg)
    (f : List Char → Bool) :
    ∀ (l : List Capture) (i : Nat) (st : CapState) (c : Capture),
      c ∈ l →
      shouldSkipCapture env.isAlnum c.text cfg.captureMinChars = false →
      env.hashOf c.text ∈ (capLoop env cfg f i l st).recentHashes ∨
        (capLoop env cfg f i l st).aborted = true := by
  intro l
  induction l with
  | nil => intro i st c hmem; exact absurd hmem (List.not_mem_nil c)
  | cons a rest ih =>
    intro i st c hmem hnoise
    rcases List.mem_cons.mp hmem with heq | htail
    · subst heq
      rcases captureStep_nonnoise_hash env cfg f st i c hnoise with hab | hin
      · rw [show capLoop env cfg f i (c :: rest) st =
              capLoop env cfg f (i + 1) rest (captureStep env cfg f st i c)
            from rfl,
            captureStep_of_aborted env cfg f st i c hab,
            capLoop_of_aborted env cfg f rest (i + 1) st hab]
        exact Or.inr hab
      · exact Or.inl
          (capLoop_hashes_sub env cfg f rest (i + 1)
            (captureStep env cfg f st i c) hin)
    · exact ih (i + 1) (captureStep env cfg f st i a) c htail hnoise

theorem capLoop_stored_le (env : CapEnv) (cfg : CaptureCfg)
    (f : List Char → Bool) :
    ∀ (l : List Capture) (i : Nat) (st : CapState),
      (capLoop env cfg f i l st).stored ≤ st.stored + l.length := by
  intro l
  induction l with
  | nil => intro i st; exact Nat.le_add_right st.stored _
  | cons c rest ih =>
    intro i st
    have h1 := ih (i + 1) (captureStep env cfg f st i c)
    have h2 := captureStep_stored_le env cfg f st i c
    simp only [List.length_cons]
    calc (capLoop env cfg f (i + 1) rest (captureStep env cfg f st i c)).stored
        ≤ (captureStep env cfg f st i c).stored + rest.length := h1
      _ ≤ st.stored + 1 + rest.length := by omega
      _ = st.stored + (rest.length + 1) := by omega

theorem captureStep_noabort (env : CapEnv) (cfg : CaptureCfg)
    (f : List Char → Bool) (st : CapState) (i : Nat) (c : Capture)
    (hf : ∀ t, f t = false) (h : st.aborted = false) :
    (captureStep env cfg f st i c).aborted = false := by
  unfold captureStep
  split_ifs with _ _ _ hfail
  · exact h
  · exact h
  · exact h
  · exact absurd hfail (by simp [hf])
  · exact h

theorem capLoop_noabort (env : CapEnv) (cfg : CaptureCfg)
    (f : List Char → Bool) :
    ∀ (l : List Capture) (i : Nat) (st : CapState),
      (∀ t, f t = false) → st.aborted = false →
      (capLoop env cfg f i l st).aborted = false := by
  intro l
  induction l with
  | nil => intro i st _ h; exact h
  | cons c rest ih =>
    intro i st hf h
    exact ih (i + 1) (captureStep env cfg f st i c) hf
      (captureStep_noabort env cfg f st i c hf h)

theorem captureStep_items_nofail (env : CapEnv) (cfg : CaptureCfg)
    (f : List Char → Bool) (st : CapState) (i : Nat) (c : Capture)
    (h : ∀ it ∈ st.items, f it.text = false) :
    ∀ it ∈ (captureStep env cfg f st i c).items, f it.text = false := by
  intro it hmem
  unfold captureStep at hmem
  split_ifs at hmem with h1 h2 h3 h4
  · exact h it hmem
  · exact h it hmem
  · exact h it hmem
  · exact h it hmem
  · rcases List.mem_append.mp hmem with hm | hm
    · exact h it hm
    · rw [List.mem_singleton.mp hm]
      simpa using h4

theorem capLoop_items_nofail (env : CapEnv) (cfg : CaptureCfg)
    (f : List Char → Bool) :
    ∀ (l : List Capture) (i : Nat) (st : CapState),
      (∀ it ∈ st.items, f it.text = false) →
      ∀ it ∈ (capLoop env cfg f i l st).items, f it.text = false := by
  intro l
  induction l with
  | nil => intro i st h; exact h
  | cons c rest ih =>
    intro i st h
    exact ih (i + 1) (captureStep env cfg f st i c)
      (captureStep_items_nofail env cfg f st i c h)

theorem captureStep_ids (env : CapEnv) (cfg : CaptureCfg)
    (f : List Char → Bool) (st : CapState) (i : Nat) (c : Capture)
    (hlt : ∀ it ∈ st.items, it.id < i)
    (hpw : List.Pairwise (fun a b => a.id < b.id) st.items) :
    (∀ it ∈ (captureStep env cfg f st i c).items, it.id < i + 1) ∧
      List.Pairwise (fun a b => a.id < b.id)
        (captureStep env cfg f st i c).items := by
  unfold captureStep
  split_ifs <;> first
    | exact ⟨fun it h => Nat.lt_succ_of_lt (hlt it h), hpw⟩
    | · constructor
        · intro it hmem
          rcases List.mem_append.mp hmem with hm | hm
          · exact Nat.lt_succ_of_lt (hlt it hm)
          · rw [List.mem_singleton.mp hm]
            exact Nat.lt_succ_self i
        · rw [List.pairwise_append]
          refine ⟨hpw, List.pairwise_singleton _ _, ?_⟩
          intro a ha b hb
          rw [List.mem_singleton.mp hb]
          exact hlt a ha

theorem capLoop_ids (env : CapEnv) (cfg : CaptureCfg)
    (f : List Char → Bool) :
    ∀ (l : List Capture) (i : Nat) (st : CapState),
      (∀ it ∈ st.items, it.id < i) →
      List.Pairwise (fun a b => a.id < b.id) st.items →
      (∀ it ∈ (capLoop env cfg f i l st).items, it.id < i + l.length) ∧
        List.Pairwise (fun a b => a.id < b.id)
          (capLoop env cfg f i l st).items := by
  intro l
  induction l with
  | nil => intro i st h1 h2; exact ⟨h1, h2⟩
  | cons c rest ih =>
    intro i st h1 h2
    have hs := captureStep_ids env cfg f st i c h1 h2
    have hr := ih (i + 1) (captureStep env cfg f st i c) hs.1 hs.2
    refine ⟨fun it hm => ?_, hr.2⟩
    have := hr.1 it hm
    simp only [List.length_cons]
    omega

/-! Lemmas about the GC selection. -/

theorem mem_insertSorted (a x : GItem) :
    ∀ l, x ∈ insertSorted a l ↔ x = a ∨ x ∈ l := by
  intro l
  induction l with
  | nil => simp [insertSorted]
  | cons b rest ih =>
    simp only [insertSorted]
    split_ifs
    · simp [List.mem_cons]
    · simp only [List.mem_cons, ih]
      tauto

theorem mem_sortByCreatedAt (x : GItem) :
    ∀ l, x ∈ sortByCreatedAt l ↔ x ∈ l := by
  intro l
  induction l with
  | nil => simp [sortByCreatedAt]
  | cons a rest ih =>
    simp only [sortByCreatedAt, mem_insertSorted, ih, List.mem_cons]

theorem gcWhere_iff (cutoff : Int) (prot : List (List Char)) (it : GItem) :
    gcWhere cutoff prot it = true ↔
      (it.created_at < cutoff ∧ ∀ t, it.tags = some t → t ∉ prot) := by
  unfold gcWhere
  rcases htags : it.tags with _ | t
  · simp
  · simp only [Option.elim_some, Bool.and_eq_true, Bool.or_eq_true,
      decide_eq_true_eq, Bool.not_eq_true', decide_eq_false_iff_not,
      List.isEmpty_iff]
    constructor
    · rintro ⟨hca, hp | hn⟩
      · refine ⟨hca, ?_⟩
        rintro t' ht'
        injection ht' with h
        subst h
        simp [hp]
      · refine ⟨hca, ?_⟩
        rintro t' ht'
        injection ht' with h
        subst h
        exact hn
    · rintro ⟨hca, hall⟩
      exact ⟨hca, Or.inr (hall t rfl)⟩

theorem gcSelect_subset (now : Int) (days : Nat)
    (prot : List (List Char)) (lim : Nat) (items : List GItem) :
    ∀ x ∈ gcSelect now days prot lim items,
      x ∈ gcCandidates now days prot items := by
  intro x hx
  exact (mem_sortByCreatedAt x _).mp (List.mem_of_mem_take hx)

/-! Lemmas about the short-term accumulation loop. -/

theorem stGo_length_le :
    ∀ (l : List SessionRow) (count chars : Nat),
      (stGo l count chars).length ≤ 15 - count := by
  intro l
  induction l with
  | nil => intro count chars; simp [stGo]
  | cons r rest ih =>
    intro count chars
    simp only [stGo]
    split_ifs with h1 h2 h3
    · simp
    · exact ih count chars
    · simp
    · simp only [List.length_cons]
      have hb := ih (count + 1) (chars + (rowLine r).length)
      simp only [Bool.or_eq_true, decide_eq_true_eq, not_or] at h1
      omega

theorem stGo_sum_le :
    ∀ (l : List SessionRow) (count chars : Nat),
      ((stGo l count chars).map List.length).sum ≤ 2000 - chars := by
  intro l
  induction l with
  | nil => intro count chars; simp [stGo]
  | cons r rest ih =>
    intro count chars
    simp only [stGo]
    split_ifs with h1 h2 h3
    · simp
    · exact ih count chars
    · simp
    · simp only [List.map_cons, List.sum_cons]
      have hb := ih (count + 1) (chars + (rowLine r).length)
      simp only [Bool.or_eq_true, decide_eq_true_eq, not_or] at h1
      omega

theorem stGo_mem :
    ∀ (l : List SessionRow) (count chars : Nat) (line : List Char),
      line ∈ stGo l count chars → ∃ r ∈ l, line = rowLine r := by
  intro l
  induction l with
  | nil => intro count chars line h; simp [stGo] at h
  | cons r rest ih =>
    intro count chars line h
    simp only [stGo] at h
    split_ifs at h
    · exact absurd h (List.not_mem_nil line)
    · rcases ih count chars line h with ⟨r', hr', heq⟩
      exact ⟨r', List.mem_cons_of_mem r hr', heq⟩
    · exact absurd h (List.not_mem_nil line)
    · rcases List.mem_cons.mp h with heq | htail
      · exact ⟨r, List.mem_cons_self r rest, heq⟩
      · rcases ih (count + 1) (chars + (rowLine r).length) line htail with
          ⟨r', hr', heq⟩
        exact ⟨r', List.mem_cons_of_mem r hr', heq⟩

/-! Lemmas about the degradation-warning rate limit. -/

theorem degradedWarnTimes_cons (t : Int) (rest : List Int) (last : Int) :
    degradedWarnTimes (t :: rest) last =
      if t - last < hybridDegradeIntervalMs then degradedWarnTimes rest last
      else t :: degradedWarnTimes rest t := by
  by_cases h : t - last < hybridDegradeIntervalMs <;>
    simp [degradedWarnTimes, maybeLogHybridDegraded, h]

theorem degradedWarnTimes_lower :
    ∀ (times : List Int) (last e : Int),
      e ∈ degradedWarnTimes times last →
      last + hybridDegradeIntervalMs ≤ e := by
  intro times
  induction times with
  | nil => intro last e h; simp [degradedWarnTimes] at h
  | cons t rest ih =>
    intro last e he
    rw [degradedWarnTimes_cons] at he
    by_cases h : t - last < hybridDegradeIntervalMs
    · rw [if_pos h] at he
      exact ih last e he
    · rw [if_neg h] at he
      have hI : (0 : Int) < hybridDegradeIntervalMs := by
        norm_num [hybridDegradeIntervalMs]
      rcases List.mem_cons.mp he with rfl | hm
      · omega
      · have := ih t e hm
        omega

theorem degradedWarnTimes_pairwise :
    ∀ (times : List Int) (last : Int),
      List.Pairwise (fun a b => a + hybridDegradeIntervalMs ≤ b)
        (degradedWarnTimes times last) := by
  intro times
  induction times with
  | nil => intro last; simp [degradedWarnTimes]
  | cons t rest ih =>
    intro last
    rw [degradedWarnTimes_cons]
    by_cases h : t - last < hybridDegradeIntervalMs
    · rw [if_pos h]
      exact ih last
    · rw [if_neg h]
      exact List.Pairwise.cons
        (fun e he => degradedWarnTimes_lower rest t e he) (ih t)

/-! Claim theorems. -/

/-- C1: with a positive configured dedupe window, a candidate whose
normalized-text hash is already in the dedupe window — whether the hash
came from the pre-existing store query (`dbHashes`) or from an earlier
non-noise candidate of the same turn — is never stored, regardless of its
position in the batch; and with a zero window the dedupe check is bypassed
entirely: every non-noise candidate in processing range is stored even if
its hash repeats. -/
theorem c1_dedupe_window :
    ∀ (env : CapEnv) (cfg : CaptureCfg) (insertFails : List Char → Bool)
      (dbHashes : List (List Char)) (cleaned : List Capture),
      (0 < cfg.captureDedupeWindowMs →
        ∀ (pre : List Capture) (c : Capture) (post : List Capture),
          cleaned = pre ++ c :: post →
          (env.hashOf c.text ∈ dbHashes ∨
            ∃ c' ∈ pre,
              shouldSkipCapture env.isAlnum c'.text cfg.captureMinChars
                  = false ∧
                env.hashOf c'.text = env.hashOf c.text) →
          ∀ it ∈ (captureRun env cfg insertFails dbHashes cleaned).items,
            it.id ≠ pre.length) ∧
      (cfg.captureDedupeWindowMs = 0 →
        ∀ (pre : List Capture) (c : Capture) (post : List Capture),
          cleaned.take cfg.captureMaxPerTurn = pre ++ c :: post →
          shouldSkipCapture env.isAlnum c.text cfg.captureMinChars = false →
          ({ id := pre.length, text := clip cfg.captureMaxChars c.text,
             tags := c.role, hash := env.hashOf c.text } : StoredItem) ∈
            (captureRun env cfg (fun _ => false) dbHashes cleaned).items) := by
  intro env cfg insertFails dbHashes cleaned
  constructor
  · intro hwin pre c post hsplit hdup it hit heq
    have hpre_ids :
        ∀ x ∈ (capLoop env cfg insertFails 0 pre
            (initCapState dbHashes)).items, x.id < pre.length := by
      intro x hx
      rcases capLoop_items_mem env cfg insertFails pre 0
          (initCapState dbHashes) x hx with h | h
      · exact absurd h (List.not_mem_nil x)
      · omega
    have hLlen : (cleaned.take cfg.captureMaxPerTurn).length =
        min cfg.captureMaxPerTurn cleaned.length := by
      simp
    rcases Nat.lt_or_ge pre.length
        (cleaned.take cfg.captureMaxPerTurn).length with hlt | hge
    · have hprem : pre.length < cfg.captureMaxPerTurn := by omega
      have hLsplit : cleaned.take cfg.captureMaxPerTurn =
          pre ++ c ::
            post.take (cfg.captureMaxPerTurn - pre.length - 1) := by
        have hpos : cfg.captureMaxPerTurn - pre.length =
            (cfg.captureMaxPerTurn - pre.length - 1) + 1 := by omega
        have h1 : (c :: post).take (cfg.captureMaxPerTurn - pre.length) =
            c :: post.take (cfg.captureMaxPerTurn - pre.length - 1) := by
          conv_lhs => rw [hpos]
          rw [List.take_succ_cons]
        rw [hsplit, List.take_append_eq_append_take,
          List.take_of_length_le (le_of_lt hprem), h1]
      have hrun : captureRun env cfg insertFails dbHashes cleaned =
          capLoop env cfg insertFails pre.length
            (c :: post.take (cfg.captureMaxPerTurn - pre.length - 1))
            (capLoop env cfg insertFails 0 pre (initCapState dbHashes)) := by
        unfold captureRun
        rw [hLsplit, capLoop_append_eq, Nat.zero_add]
      rw [hrun] at hit
      cases hab : (capLoop env cfg insertFails 0 pre
          (initCapState dbHashes)).aborted with
      | true =>
        rw [capLoop_of_aborted env cfg insertFails _ _ _ hab] at hit
        have := hpre_ids it hit
        omega
      | false =>
        have hstep : captureStep env cfg insertFails
            (capLoop env cfg insertFails 0 pre (initCapState dbHashes))
            pre.length c =
            capLoop env cfg insertFails 0 pre (initCapState dbHashes) := by
          by_cases hnoise : shouldSkipCapture env.isAlnum c.text
              cfg.captureMinChars = true
          · unfold captureStep
            rw [if_neg (by simp [hab]), if_pos hnoise]
          · have hnoise' : shouldSkipCapture env.isAlnum c.text
                cfg.captureMinChars = false := by
              rw [← Bool.not_eq_true]
              exact hnoise
            have hin : env.hashOf c.text ∈
                (capLoop env cfg insertFails 0 pre
                  (initCapState dbHashes)).recentHashes := by
              rcases hdup with hdb | ⟨c', hc'm, hc'n, hc'h⟩
              · exact capLoop_hashes_sub env cfg insertFails pre 0
                  (initCapState dbHashes) hdb
              · rcases capLoop_nonnoise_hash env cfg insertFails pre 0
                    (initCapState dbHashes) c' hc'm hc'n with h | h
                · exact hc'h ▸ h
                · rw [hab] at h
                  exact absurd h (by simp)
            unfold captureStep
            rw [if_neg (by simp [hab]), if_neg (by simp [hnoise']),
              if_pos (by simp [hwin, hin])]
        rw [show capLoop env cfg insertFails pre.length
              (c :: post.take (cfg.captureMaxPerTurn - pre.length - 1))
              (capLoop env cfg insertFails 0 pre (initCapState dbHashes)) =
            capLoop env cfg insertFails (pre.length + 1)
              (post.take (cfg.captureMaxPerTurn - pre.length - 1))
              (captureStep env cfg insertFails
                (capLoop env cfg insertFails 0 pre (initCapState dbHashes))
                pre.length c) from rfl, hstep] at hit
        rcases capLoop_items_mem env cfg insertFails _ _ _ it hit with h | h
        · have := hpre_ids it h
          omega
        · omega
    · unfold captureRun at hit
      rcases capLoop_items_mem env cfg insertFails _ 0
          (initCapState dbHashes) it hit with h | h
      · exact absurd h (List.not_mem_nil it)
      · omega
  · intro hwin pre c post hsplit hnoise
    have hrun : captureRun env cfg (fun _ => false) dbHashes cleaned =
        capLoop env cfg (fun _ => false) pre.length (c :: post)
          (capLoop env cfg (fun _ => false) 0 pre (initCapState dbHashes)) := by
      unfold captureRun
      rw [hsplit, capLoop_append_eq, Nat.zero_add]
    have hab : (capLoop env cfg (fun _ => false) 0 pre
        (initCapState dbHashes)).aborted = false :=
      capLoop_noabort env cfg (fun _ => false) pre 0 (initCapState dbHashes)
        (fun _ => rfl) rfl
    have hstep : (captureStep env cfg (fun _ => false)
        (capLoop env cfg (fun _ => false) 0 pre (initCapState dbHashes))
        pre.length c).items =
        (capLoop env cfg (fun _ => false) 0 pre
          (initCapState dbHashes)).items ++
          [{ id := pre.length, text := clip cfg.captureMaxChars c.text,
             tags := c.role, hash := env.hashOf c.text }] := by
      unfold captureStep
      rw [if_neg (by simp [hab]), if_neg (by simp [hnoise]),
        if_neg (by simp [hwin]), if_neg (by simp)]
    rw [hrun]
    refine capLoop_items_sub env cfg (fun _ => false) post (pre.length + 1)
      (captureStep env cfg (fun _ => false)
        (capLoop env cfg (fun _ => false) 0 pre (initCapState dbHashes))
        pre.length c) ?_
    rw [hstep]
    exact List.mem_append_right _ (List.mem_singleton_self _)

/-- Witness for C1: with the one-hour window of `exCfgW`, processing the
batch `[exCu, exCu]` (a within-turn duplicate) never stores an item for
the second candidate (id 1), while the duplicate-hash hypothesis is
discharged concretely. -/
theorem c1_dedupe_window_witness :
    (0 < exCfgW.captureDedupeWindowMs ∧
      ({ id := 0, text := "hello world".data, tags := Role.user,
         hash := "hello world".data } : StoredItem) ∈
        (captureRun exEnv exCfgW (fun _ => false) [] [exCu, exCu]).items) ∧
    ({ id := 0, text := "hello world".data, tags := Role.user,
       hash := "hello world".data } : StoredItem).id ≠ 1 := by
  refine ⟨⟨by decide, by decide⟩, ?_⟩
  have h := (c1_dedupe_window exEnv exCfgW (fun _ => false) []
      [exCu, exCu]).1 (by decide) [exCu] exCu [] (by decide)
    (Or.inr ⟨exCu, by decide, by decide, rfl⟩)
    { id := 0, text := "hello world".data, tags := Role.user,
      hash := "hello world".data } (by decide)
  exact h

theorem capLoop_items_clip (env : CapEnv) (cfg : CaptureCfg)
    (f : List Char → Bool) :
    ∀ (l : List Capture) (i : Nat) (st : CapState) (it : StoredItem),
      it ∈ (capLoop env cfg f i l st).items →
      it ∈ st.items ∨ ∃ c ∈ l, it.text = clip cfg.captureMaxChars c.text := by
  intro l
  induction l with
  | nil => intro i st it h; exact Or.inl h
  | cons c rest ih =>
    intro i st it h
    rcases ih (i + 1) (captureStep env cfg f st i c) it h with h1 | h1
    · rcases captureStep_items_mem env cfg f st i c it h1 with h2 | h2
      · exact Or.inl h2
      · exact Or.inr ⟨c, List.mem_cons_self c rest, by rw [h2]⟩
    · rcases h1 with ⟨c', hc', heq⟩
      exact Or.inr ⟨c', List.mem_cons_of_mem c hc', heq⟩

/-- C3 counterexample: in the batch `[exC1, exC2]` both candidates are
individually storable (without failures the loop stores both), but when
the insert of the first candidate fails (`exFails`), nothing at all is
stored — the second candidate is not processed, contradicting the claim
that a failing insert is skipped and later candidates are still
inserted. -/
theorem c3_counterexample :
    shouldSkipCapture exEnv.isAlnum exC2.text exCfg0.captureMinChars
        = false ∧
    exFails (clip exCfg0.captureMaxChars exC2.text) = false ∧
    (captureRun exEnv exCfg0 exFails [] [exC1, exC2]).items = [] ∧
    (captureRun exEnv exCfg0 (fun _ => false) [] [exC1, exC2]).stored = 2 :=
  ⟨by decide, by decide, by decide, by decide⟩

/-- C3 amended: failure of a single store insert aborts the remaining
insertions of the batch — once the loop state is aborted, appending
further candidates changes nothing; the failing item itself is never
among the stored rows; the success-count log is not emitted; and the
outer catch swallows the error, so the turn-completion handler never
crashes. -/
theorem c3_insert_failure_aborts :
    ∀ (env : CapEnv) (cfg : CaptureCfg) (insertFails : List Char → Bool)
      (dbHashes : List (List Char)) (cleaned : List Capture),
      (agentEndCapture env cfg insertFails dbHashes cleaned).crashed
          = false ∧
      ((captureRun env cfg insertFails dbHashes cleaned).aborted = true →
        (agentEndCapture env cfg insertFails dbHashes cleaned).loggedCount
          = none) ∧
      (∀ it ∈ (captureRun env cfg insertFails dbHashes cleaned).items,
        insertFails it.text = false) ∧
      (∀ (l₁ l₂ : List Capture) (i : Nat) (st : CapState),
        (capLoop env cfg insertFails i l₁ st).aborted = true →
        capLoop env cfg insertFails i (l₁ ++ l₂) st =
          capLoop env cfg insertFails i l₁ st) := by
  intro env cfg insertFails dbHashes cleaned
  refine ⟨?_, ?_, ?_, ?_⟩
  · simp only [agentEndCapture]
    split <;> rfl
  · intro h
    simp [agentEndCapture, h]
  · intro it hit
    exact capLoop_items_nofail env cfg insertFails _ 0 (initCapState dbHashes)
      (by intro x hx; exact absurd hx (List.not_mem_nil x)) it hit
  · intro l₁ l₂ i st hab
    rw [capLoop_append_eq, capLoop_of_aborted env cfg insertFails l₂ _ _ hab]

/-- Witness for C3 (amended): on the concrete failing batch the loop is
aborted and no success count is logged. -/
theorem c3_insert_failure_aborts_witness :
    (captureRun exEnv exCfg0 exFails [] [exC1, exC2]).aborted = true ∧
    (agentEndCapture exEnv exCfg0 exFails [] [exC1, exC2]).loggedCount
        = none := by
  refine ⟨by decide, ?_⟩
  exact (c3_insert_failure_aborts exEnv exCfg0 exFails []
    [exC1, exC2]).2.1 (by decide)

/-- C9: the capture count never exceeds `min(len(batch), maxPerTurn)`,
stored rows come from candidates in original order (strictly increasing
candidate indices), every stored row originates from the truncated range,
and the loop result depends only on the first `maxPerTurn` candidates
(the remainder is dropped). -/
theorem c9_stored_bound :
    ∀ (env : CapEnv) (cfg : CaptureCfg) (insertFails : List Char → Bool)
      (dbHashes : List (List Char)) (cleaned : List Capture),
      (captureRun env cfg insertFails dbHashes cleaned).stored ≤
          min cleaned.length cfg.captureMaxPerTurn ∧
      List.Pairwise (fun a b => a.id < b.id)
        (captureRun env cfg insertFails dbHashes cleaned).items ∧
      (∀ it ∈ (captureRun env cfg insertFails dbHashes cleaned).items,
        it.id < min cfg.captureMaxPerTurn cleaned.length) ∧
      captureRun env cfg insertFails dbHashes cleaned =
        captureRun env cfg insertFails dbHashes
          (cleaned.take cfg.captureMaxPerTurn) := by
  intro env cfg insertFails dbHashes cleaned
  have hlen : (cleaned.take cfg.captureMaxPerTurn).length =
      min cfg.captureMaxPerTurn cleaned.length := by
    simp
  have hids := capLoop_ids env cfg insertFails
    (cleaned.take cfg.captureMaxPerTurn) 0 (initCapState dbHashes)
    (by intro it h; exact absurd h (List.not_mem_nil it))
    List.Pairwise.nil
  refine ⟨?_, hids.2, ?_, ?_⟩
  · have hs := capLoop_stored_le env cfg insertFails
      (cleaned.take cfg.captureMaxPerTurn) 0 (initCapState dbHashes)
    rw [hlen] at hs
    have h0 : (initCapState dbHashes).stored = 0 := rfl
    rw [h0] at hs
    unfold captureRun
    omega
  · intro it hit
    have h2 := hids.1 it hit
    rw [hlen] at h2
    omega
  · unfold captureRun
    rw [List.take_take, min_self]

/-- Witness for C9: on the concrete duplicate batch the stored row's
candidate index lies below `min(maxPerTurn, len(batch))`. -/
theorem c9_stored_bound_witness :
    ({ id := 0, text := "hello world".data, tags := Role.user,
       hash := "hello world".data } : StoredItem) ∈
        (captureRun exEnv exCfgW (fun _ => false) [] [exCu, exCu]).items ∧
    ({ id := 0, text := "hello world".data, tags := Role.user,
       hash := "hello world".data } : StoredItem).id <
        min exCfgW.captureMaxPerTurn ([exCu, exCu] : List Capture).length := by
  refine ⟨by decide, ?_⟩
  exact (c9_stored_bound exEnv exCfgW (fun _ => false) []
    [exCu, exCu]).2.2.1 _ (by decide)

/-- C10: every stored row's text has length at most
`captureMaxChars + 1`; text within the cap is stored verbatim, and longer
text is cut to exactly `captureMaxChars` characters with a single
ellipsis appended, so a clipped row exceeds the cap by exactly one
character. -/
theorem c10_clip_bound :
    ∀ (env : CapEnv) (cfg : CaptureCfg) (insertFails : List Char → Bool)
      (dbHashes : List (List Char)) (cleaned : List Capture),
      (∀ it ∈ (captureRun env cfg insertFails dbHashes cleaned).items,
        it.text.length ≤ cfg.captureMaxChars + 1 ∧
        ∃ c ∈ cleaned, it.text = clip cfg.captureMaxChars c.text) ∧
      (∀ t : List Char,
        (t.length ≤ cfg.captureMaxChars → clip cfg.captureMaxChars t = t) ∧
        (cfg.captureMaxChars < t.length →
          clip cfg.captureMaxChars t =
              t.take cfg.captureMaxChars ++ ['…'] ∧
          (clip cfg.captureMaxChars t).length = cfg.captureMaxChars + 1)) := by
  intro env cfg insertFails dbHashes cleaned
  have hle : ∀ t : List Char, t.length ≤ cfg.captureMaxChars →
      clip cfg.captureMaxChars t = t := by
    intro t ht
    unfold clip
    rw [if_neg (by omega)]
  have hgt : ∀ t : List Char, cfg.captureMaxChars < t.length →
      clip cfg.captureMaxChars t = t.take cfg.captureMaxChars ++ ['…'] := by
    intro t ht
    unfold clip
    rw [if_pos ht]
  have hgtlen : ∀ t : List Char, cfg.captureMaxChars < t.length →
      (clip cfg.captureMaxChars t).length = cfg.captureMaxChars + 1 := by
    intro t ht
    rw [hgt t ht]
    simp only [List.length_append, List.length_take, List.length_singleton]
    omega
  have hbound : ∀ t : List Char,
      (clip cfg.captureMaxChars t).length ≤ cfg.captureMaxChars + 1 := by
    intro t
    by_cases h : cfg.captureMaxChars < t.length
    · exact le_of_eq (hgtlen t h)
    · rw [hle t (by omega)]
      omega
  refine ⟨?_, fun t => ⟨hle t, fun h => ⟨hgt t h, hgtlen t h⟩⟩⟩
  intro it hit
  rcases capLoop_items_clip env cfg insertFails
      (cleaned.take cfg.captureMaxPerTurn) 0 (initCapState dbHashes) it hit
    with h | ⟨c, hc, heq⟩
  · exact absurd h (List.not_mem_nil it)
  · refine ⟨?_, c, List.take_subset _ _ hc, heq⟩
    rw [heq]
    exact hbound c.text

/-- Witness for C10: a 210-character text under the 200-character cap of
`exCfg0` is clipped to exactly 201 characters. -/
theorem c10_clip_bound_witness :
    exCfg0.captureMaxChars < (List.replicate 210 'a').length ∧
    (clip exCfg0.captureMaxChars (List.replicate 210 'a')).length =
        exCfg0.captureMaxChars + 1 := by
  refine ⟨by rw [List.length_replicate]; norm_num [exCfg0], ?_⟩
  exact ((c10_clip_bound exEnv exCfg0 (fun _ => false) [] []).2
    (List.replicate 210 'a')).2
      (by rw [List.length_replicate]; norm_num [exCfg0]) |>.2

theorem memory_gc_live_true_db (vacuumFails : Bool) (now : Int)
    (days : Nat) (prot : List (List Char)) (lim : Nat) (db : GcDb) :
    (memory_gc_live true vacuumFails now days prot lim db).1 = db := rfl

theorem memory_gc_live_false_db (vacuumFails : Bool) (now : Int)
    (days : Nat) (prot : List (List Char)) (lim : Nat) (db : GcDb) :
    (memory_gc_live false vacuumFails now days prot lim db).1 =
      { items := db.items.filter (fun x => !(decide (x.id ∈
            (gcSelect now days prot lim db.items).map GItem.id))),
        embeddings := db.embeddings.filter (fun e => !(decide (e.item_id ∈
            (gcSelect now days prot lim db.items).map GItem.id))) } := rfl

/-- C2: for live `memory_gc` with any `retentionDays`, an item is a
selection candidate exactly when `created_at < now - retentionDays *
86400000` and its tag is not in `protectedTags` (exact match, null tag
always eligible); and an item whose tag is in `protectedTags` is never
deleted, however old it is (the `id` column is the table's primary key,
hence the `Nodup` hypothesis). -/
theorem c2_gc_protected :
    ∀ (now : Int) (days : Nat) (protectedTags : List (List Char))
      (lim : Nat),
      (∀ (items : List GItem) (it : GItem),
        it ∈ gcCandidates now days protectedTags items ↔
          (it ∈ items ∧
            it.created_at < now - (days : Int) * 86400000 ∧
            ∀ t, it.tags = some t → t ∉ protectedTags)) ∧
      (∀ (txFails vacuumFails : Bool) (db : GcDb) (it : GItem)
          (t : List Char),
        (db.items.map GItem.id).Nodup → it ∈ db.items →
        it.tags = some t → t ∈ protectedTags →
        it ∈ (memory_gc_live txFails vacuumFails now days protectedTags lim
            db).1.items) := by
  intro now days protectedTags lim
  constructor
  · intro items it
    unfold gcCandidates
    rw [List.mem_filter, gcWhere_iff]
  · intro txFails vacuumFails db it t hnd hmem htags hprot
    cases txFails with
    | true =>
      rw [memory_gc_live_true_db]
      exact hmem
    | false =>
      rw [memory_gc_live_false_db]
      have hkeep : it.id ∉
          (gcSelect now days protectedTags lim db.items).map GItem.id := by
        intro hin
        rcases List.mem_map.mp hin with ⟨sel, hsel, hid⟩
        have hselc :=
          gcSelect_subset now days protectedTags lim db.items sel hsel
        have hselitems : sel ∈ db.items := (List.mem_filter.mp hselc).1
        have heq : sel = it :=
          List.inj_on_of_nodup_map hnd hselitems hmem hid
        subst heq
        have hw := (List.mem_filter.mp hselc).2
        rw [gcWhere_iff] at hw
        exact hw.2 t htags hprot
      exact List.mem_filter.mpr ⟨hmem, by simp [hkeep]⟩

/-- Witness for C2: with `retentionDays = 1` and an item two days old
tagged `personal`, live GC keeps the item. -/
theorem c2_gc_protected_witness :
    exPItem.created_at < (200000000 : Int) - ((1 : Nat) : Int) * 86400000 ∧
    exPItem ∈ (memory_gc_live false false 200000000 1 ["personal".data]
        1000 exDb2).1.items := by
  refine ⟨by decide, ?_⟩
  exact (c2_gc_protected 200000000 1 ["personal".data] 1000).2 false false
    exDb2 exPItem "personal".data (by decide) (by decide) rfl (by decide)

/-- C4: live GC deletes the selected item rows and their dependent
embedding rows together: for every id, either both survive untouched or
both are gone — no post-state (commit or rollback) leaves an item without
its embeddings or embeddings without their item; and a VACUUM failure
neither fails the operation nor alters its outcome (the result is
identical for both values of the vacuum flag). -/
theorem c4_gc_atomic :
    ∀ (txFails vacuumFails : Bool) (now : Int) (days : Nat)
      (protectedTags : List (List Char)) (lim : Nat) (db : GcDb),
      memory_gc_live txFails true now days protectedTags lim db =
          memory_gc_live txFails false now days protectedTags lim db ∧
      (∀ n : Nat,
        ((∃ it ∈ db.items, it.id = n ∧
            it ∉ (memory_gc_live txFails vacuumFails now days protectedTags
              lim db).1.items) →
          ∀ e ∈ (memory_gc_live txFails vacuumFails now days protectedTags
              lim db).1.embeddings, e.item_id ≠ n) ∧
        ((∃ e ∈ db.embeddings, e.item_id = n ∧
            e ∉ (memory_gc_live txFails vacuumFails now days protectedTags
              lim db).1.embeddings) →
          ∀ it ∈ (memory_gc_live txFails vacuumFails now days protectedTags
              lim db).1.items, it.id ≠ n)) := by
  intro txFails vacuumFails now days protectedTags lim db
  refine ⟨by cases txFails <;> rfl, ?_⟩
  intro n
  cases txFails with
  | true =>
    constructor
    · rintro ⟨it, hmem, _, hnot⟩
      rw [memory_gc_live_true_db] at hnot
      exact absurd hmem hnot
    · rintro ⟨e, hmem, _, hnot⟩
      rw [memory_gc_live_true_db] at hnot
      exact absurd hmem hnot
  | false =>
    constructor
    · rintro ⟨it, hmem, hid, hnot⟩
      intro e he heq
      rw [memory_gc_live_false_db] at hnot he
      have hin : it.id ∈
          (gcSelect now days protectedTags lim db.items).map GItem.id := by
        by_contra hno
        exact hnot (List.mem_filter.mpr ⟨hmem, by simp [hno]⟩)
      have hpred := (List.mem_filter.mp he).2
      simp only [Bool.not_eq_true', decide_eq_false_iff_not] at hpred
      exact hpred (by rw [heq, ← hid]; exact hin)
    · rintro ⟨e, hmem, hid, hnot⟩
      intro it hit heq
      rw [memory_gc_live_false_db] at hnot hit
      have hin : e.item_id ∈
          (gcSelect now days protectedTags lim db.items).map GItem.id := by
        by_contra hno
        exact hnot (List.mem_filter.mpr ⟨hmem, by simp [hno]⟩)
      have hpred := (List.mem_filter.mp hit).2
      simp only [Bool.not_eq_true', decide_eq_false_iff_not] at hpred
      exact hpred (by rw [heq, ← hid]; exact hin)

/-- Witness for C4: on `exDb4` (stale item 1 deleted with its embedding;
fresh item 2 kept), the surviving embedding row cannot reference the
deleted item. -/
theorem c4_gc_atomic_witness :
    ({ item_id := 2 } : EmbRow) ∈
        (memory_gc_live false false 200000000 1 [] 1000 exDb4).1.embeddings ∧
    ({ item_id := 2 } : EmbRow).item_id ≠ 1 := by
  refine ⟨by decide, ?_⟩
  exact ((c4_gc_atomic false false 200000000 1 [] 1000 exDb4).2 1).1
    ⟨{ id := 1, created_at := 0, tags := none }, by decide, rfl, by decide⟩
    { item_id := 2 } (by decide)

/-- C5 counterexample: a message bearing the short-term-memory marker
passes `sanitizeCaptures` unchanged, so sanitized output can contain a
message bearing an injected-context marker of the Recall Assembler,
contrary to the claim that both markers are filtered. -/
theorem c5_counterexample :
    sanitizeCaptures [stMsg] = [stMsg] ∧
    includes stMsg.text shortTermMarker = true :=
  ⟨by decide, by decide⟩

/-- C5 amended: `sanitizeCaptures` is a pure, order-preserving filter
that drops every message whose trimmed text is empty and every message
containing the relevant-memories marker — but only that marker; the
short-term-memory marker is not filtered.  Every surviving message has
nonempty trimmed text free of the relevant-memories marker, and the
output is a sublist of the trimmed input. -/
theorem c5_sanitize :
    ∀ msgs : List Capture,
      (∀ c ∈ sanitizeCaptures msgs,
        c.text ≠ [] ∧ includes c.text relevantMemoriesMarker = false) ∧
      (sanitizeCaptures msgs).Sublist
        (msgs.map (fun c => { role := c.role, text := jsTrim c.text })) := by
  intro msgs
  constructor
  · intro c hc
    unfold sanitizeCaptures at hc
    have h2 := (List.mem_filter.mp hc).2
    have h1 := (List.mem_filter.mp (List.mem_filter.mp hc).1).2
    rw [decide_eq_true_eq] at h1
    constructor
    · intro hnil
      rw [hnil] at h1
      simp at h1
    · rw [Bool.not_eq_true'] at h2
      exact h2
  · unfold sanitizeCaptures
    exact (List.filter_sublist _).trans (List.filter_sublist _)

/-- Witness for C5 (amended): on the concrete two-message input, the
trimmed `hello` message survives with nonempty text. -/
theorem c5_sanitize_witness :
    ({ role := Role.user, text := "hello".data } : Capture) ∈
        sanitizeCaptures [{ role := Role.user, text := " hello ".data },
          { role := Role.assistant,
            text := "<relevant-memories>x</relevant-memories>".data }] ∧
    ({ role := Role.user, text := "hello".data } : Capture).text ≠ [] := by
  refine ⟨by decide, ?_⟩
  exact ((c5_sanitize [{ role := Role.user, text := " hello ".data },
    { role := Role.assistant,
      text := "<relevant-memories>x</relevant-memories>".data }]).1
    { role := Role.user, text := "hello".data } (by decide)).1

/-- C6 counterexample: with the two-character prompt `hi`, a present
session identifier and a prior user capture that would render a nonempty
short-term block, the hook returns nothing at all — the short-prompt
guard skips the short-term block too, contrary to the claim that only
the long-term search is skipped. -/
theorem c6_counterexample :
    beforeAgentStart (fun _ => []) "hi".data (some [exRow]) [] = none ∧
    shortTermBlockOf [exRow] ≠ [] ∧
    (jsTrim "hi".data).length < 5 :=
  ⟨by decide, by decide, by decide⟩

/-- C6 amended: when the trimmed prompt is shorter than 5 characters the
`before_agent_start` hook returns immediately with no injection at all —
neither the long-term block nor the short-term block is assembled, for
every session state and search result. -/
theorem c6_short_prompt_skips_all :
    ∀ (dateFmt : Int → List Char) (prompt : List Char)
      (sessionRows : Option (List SessionRow)) (results : List RecallItem),
      (jsTrim prompt).length < 5 →
      beforeAgentStart dateFmt prompt sessionRows results = none := by
  intro dateFmt prompt sessionRows results h
  unfold beforeAgentStart
  rw [if_pos h]

/-- Witness for C6 (amended): the concrete short prompt `hi` yields no
injection even with session history present. -/
theorem c6_short_prompt_skips_all_witness :
    (jsTrim "hi".data).length < 5 ∧
    beforeAgentStart (fun _ => []) "hi".data (some [exRow]) [] = none := by
  refine ⟨by decide, ?_⟩
  exact c6_short_prompt_skips_all (fun _ => []) "hi".data (some [exRow]) []
    (by decide)

/-- C7: for every fetched session history, the short-term accumulation
(walking the fetched rows oldest-first) yields at most 15 lines whose
total length never exceeds the 2000-character budget, and every emitted
line is the complete rendered line of some fetched row — a line that
would overflow the budget is simply not added, never cut mid-line. -/
theorem c7_short_term_budget :
    ∀ rows : List SessionRow,
      (shortTermLines rows).length ≤ 15 ∧
      ((shortTermLines rows).map List.length).sum ≤ 2000 ∧
      ∀ line ∈ shortTermLines rows, ∃ r ∈ rows, line = rowLine r := by
  intro rows
  refine ⟨?_, ?_, ?_⟩
  · have h := stGo_length_le rows.reverse 0 0
    unfold shortTermLines
    omega
  · have h := stGo_sum_le rows.reverse 0 0
    unfold shortTermLines
    omega
  · intro line hline
    unfold shortTermLines at hline
    rcases stGo_mem rows.reverse 0 0 line hline with ⟨r, hr, heq⟩
    exact ⟨r, List.mem_reverse.mp hr, heq⟩

/-- Witness for C7: the single-row history emits exactly the full
rendered line of that row. -/
theorem c7_short_term_budget_witness :
    rowLine exRow ∈ shortTermLines [exRow] ∧
    ∃ r ∈ [exRow], rowLine exRow = rowLine r := by
  refine ⟨by decide, ?_⟩
  exact (c7_short_term_budget [exRow]).2.2 (rowLine exRow) (by decide)

/-- C8: in hybrid mode a failed liveness probe makes the recall call
return the lexical-only results immediately; and over any sequence of
degraded calls, warnings are emitted at least one rate-limit interval
(one hour) apart — any two emitted warning timestamps differ by at least
`hybridDegradeIntervalMs`. -/
theorem c8_hybrid_degradation :
    (∀ (now last : Int) (lexRes hybRes : List RecallItem),
      (recallSearch .hybrid false now last lexRes hybRes).1 =
        .lexical lexRes) ∧
    ∀ (times : List Int) (last : Int),
      List.Pairwise (fun a b => a + hybridDegradeIntervalMs ≤ b)
        (degradedWarnTimes times last) := by
  constructor
  · intro now last lexRes hybRes
    rcases hml : maybeLogHybridDegraded now last with ⟨last', emitted⟩
    simp [recallSearch, hml]
  · exact degradedWarnTimes_pairwise

end Mem
